import Mathlib

/-!
Shallow embedding of the voting coordinator in `src/index.js`.

The server keeps, in Redis, one key `votes:round:{r}:user:{uuid}` per
(round, voter) holding the voted contestant id with a one-hour TTL, and one
integer counter key `votes:round:{r}:contestant:{cid}` per (round, contestant).
We model the per-voter keys as a list of `VoteRec` (a fresh `SET` replaces any
record with the same round and voter, as Redis does for a key), the counters as
a total function defaulting to `0` (an absent Redis key reads as `'0'` via
`parseInt(count || '0')`, `INCR`/`DECR` treat an absent key as `0`, and `DEL`
makes the key absent), and logical time as a natural number `now`; a `GET` of a
per-voter key returns its value only while `now < expiresAt`, matching key
expiry.  Strings model the ids exactly as the template-literal keys do.
-/

structure Contestant where
  id : String
  name : String
deriving DecidableEq

structure VoteRec where
  round : Nat
  voterId : String
  contestantId : String
  expiresAt : Nat
deriving DecidableEq

structure ServerState where
  catalog : List Contestant
  currentRound : Nat
  ledger : List VoteRec
  counters : Nat → String → Int
  now : Nat

/-- Outbound messages (`send` / `broadcast` payloads in `src/index.js`). -/
inductive OutMsg where
  | welcome (uuid : String) (currentRound : Nat) (isAdmin : Bool)
  | voteSuccess (contestantId : String)
  | voteUpdate (voteCounts : List (String × Int))
  | roundUpdate (currentRound : Nat)
  | myVote (contestantId : Option String)
  | errorMsg (message : String)
deriving DecidableEq

/-- Does a ledger record sit at the per-voter key `votes:round:{r}:user:{u}`? -/
def keyMatch (r : Nat) (u : String) (rec : VoteRec) : Bool :=
  rec.round == r && rec.voterId == u

/-- `redis.get` of the per-voter key: the stored contestant id, unless the key
has expired. -/
def getVote (r : Nat) (u : String) (now : Nat) (l : List VoteRec) : Option String :=
  match l.find? (keyMatch r u) with
  | some rec => if now < rec.expiresAt then some rec.contestantId else none
  | none => none

def incrC (cs : Nat → String → Int) (r : Nat) (c : String) : Nat → String → Int :=
  fun r' c' => if r' = r ∧ c' = c then cs r' c' + 1 else cs r' c'

def decrC (cs : Nat → String → Int) (r : Nat) (c : String) : Nat → String → Int :=
  fun r' c' => if r' = r ∧ c' = c then cs r' c' - 1 else cs r' c'

/-- `redis.del` of a counter key: the key becomes absent and reads as 0. -/
def delC (cs : Nat → String → Int) (r : Nat) (c : String) : Nat → String → Int :=
  fun r' c' => if r' = r ∧ c' = c then 0 else cs r' c'

/-- The vote-counts object computed by `broadcastVoteCounts` and the
`get_vote_counts` handler: one entry per catalog contestant, current round. -/
def voteCountsView (s : ServerState) : List (String × Int) :=
  s.catalog.map (fun c => (c.id, s.counters s.currentRound c.id))

/-- `handleVote` from `src/index.js` (lines 29-54): the pure state-and-output
part.  `uuid = ""` models a falsy `user.uuid` (the `if (!uuid) return` guard);
the decrement is guarded by the truthiness of `prevContestantId`. -/
def handleVote (uuid contestantId : String) (s : ServerState) :
    ServerState × List OutMsg :=
  if uuid = "" then (s, [])
  else
    match getVote s.currentRound uuid s.now s.ledger with
    | some prev =>
      if prev = contestantId then
        (s, [OutMsg.voteSuccess contestantId])
      else
        let cs1 := if prev = "" then s.counters
          else decrC s.counters s.currentRound prev
        let l1 := VoteRec.mk s.currentRound uuid contestantId (s.now + 3600) ::
          s.ledger.filter (fun rec => !(keyMatch s.currentRound uuid rec))
        let cs2 := incrC cs1 s.currentRound contestantId
        let s' := { s with ledger := l1, counters := cs2 }
        (s', [OutMsg.voteSuccess contestantId, OutMsg.voteUpdate (voteCountsView s')])
    | none =>
        let l1 := VoteRec.mk s.currentRound uuid contestantId (s.now + 3600) ::
          s.ledger.filter (fun rec => !(keyMatch s.currentRound uuid rec))
        let cs1 := incrC s.counters s.currentRound contestantId
        let s' := { s with ledger := l1, counters := cs1 }
        (s', [OutMsg.voteSuccess contestantId, OutMsg.voteUpdate (voteCountsView s')])

/-- The `next_round` handler (lines 151-155): bump the round, broadcast the new
round number, then broadcast the (new round's) vote counts. -/
def nextRoundOp (s : ServerState) : ServerState × List OutMsg :=
  let s' := { s with currentRound := s.currentRound + 1 }
  (s', [OutMsg.roundUpdate s'.currentRound, OutMsg.voteUpdate (voteCountsView s')])

/-- The nested loops of the `reset_votes` handler (lines 157-164): for every
round `0..currentRound` and every catalog contestant, `redis.del` the counter. -/
def resetCounters (catalog : List Contestant) (currentRound : Nat)
    (cs : Nat → String → Int) : Nat → String → Int :=
  (List.range (currentRound + 1)).foldl
    (fun acc r => catalog.foldl (fun acc2 c => delC acc2 r c.id) acc) cs

/-- The `reset_votes` handler (lines 157-164). -/
def resetVotesOp (s : ServerState) : ServerState × List OutMsg :=
  let s' := { s with counters := resetCounters s.catalog s.currentRound s.counters }
  (s', [OutMsg.voteUpdate (voteCountsView s')])

/-- An abstract history event: one mutating handler invocation, or the passage
of `dt` units of time (during which per-voter keys may expire). -/
inductive Op where
  | castVote (uuid contestantId : String)
  | nextRound
  | resetVotes
  | tick (dt : Nat)
deriving DecidableEq

def tickLen : Op → Nat
  | Op.tick d => d
  | _ => 0

def ticksSum (ops : List Op) : Nat := (ops.map tickLen).sum

/-- `true` unless the operation casts a vote with an empty contestant id. -/
def okCast : Op → Bool
  | Op.castVote _ c => !(c == "")
  | _ => true

def stepOp (s : ServerState) (op : Op) : ServerState :=
  match op with
  | Op.castVote u c => (handleVote u c s).1
  | Op.nextRound => (nextRoundOp s).1
  | Op.resetVotes => (resetVotesOp s).1
  | Op.tick d => { s with now := s.now + d }

def runOps (ops : List Op) (s : ServerState) : ServerState :=
  ops.foldl stepOp s

/-- Server boot state: round 0, no votes, no counters, catalog loaded once. -/
def initState (t0 : Nat) (catalog : List Contestant) : ServerState :=
  { catalog := catalog, currentRound := 0, ledger := [],
    counters := fun _ _ => 0, now := t0 }

/-- Is a record a (round `r`, contestant `c`) record, expiry ignored? -/
def cellMatch (r : Nat) (c : String) (rec : VoteRec) : Bool :=
  rec.round == r && rec.contestantId == c

def countAll (r : Nat) (c : String) (l : List VoteRec) : Nat :=
  (l.filter (cellMatch r c)).length

/-- Is a record a non-expired (round `r`, contestant `c`) record at time `now`? -/
def activeCell (r : Nat) (c : String) (now : Nat) (rec : VoteRec) : Bool :=
  rec.round == r && rec.contestantId == c && decide (now < rec.expiresAt)

/-- The number of non-expired vote records for round `r` and contestant `c`. -/
def countActive (r : Nat) (c : String) (now : Nat) (l : List VoteRec) : Nat :=
  (l.filter (activeCell r c now)).length

/-- The number of non-expired vote records in round `r` (the active votes). -/
def totalActive (r : Nat) (now : Nat) (l : List VoteRec) : Nat :=
  (l.filter (fun rec => rec.round == r && decide (now < rec.expiresAt))).length

/-- Per-connection state: `users.get(ws)` (the bound uuid, if identified) and
the `ws.isAdmin` flag, which starts `false` on connection. -/
structure Conn where
  sessionUuid : Option String
  isAdmin : Bool
deriving DecidableEq

/-- A parsed inbound envelope, one constructor per event name the `message`
handler distinguishes; `unknown` is any other event name (the dynamic
`eventHandlers` table has no entry for it). -/
inductive ClientEvent where
  | identify (uuid : String) (token : Option String)
  | vote (contestantId : String)
  | getVoteCounts
  | getMyVote
  | nextRound
  | resetVotes
  | unknown
deriving DecidableEq

/-- The `message` handler of `src/index.js` (lines 85-126), for one parsed
envelope.  `verifyAdmin` abstracts `jwtVerify` plus the `payload.admin` check:
it returns `true` exactly when the token verifies and carries a truthy `admin`
claim (a throwing/invalid token is `false`, silently ignored).  Returns the new
connection state, the new server state, and the messages emitted. -/
def handleMessage (verifyAdmin : String → Bool) (ev : ClientEvent)
    (conn : Conn) (s : ServerState) : Conn × ServerState × List OutMsg :=
  match ev with
  | ClientEvent.identify uuid token =>
    let isAdmin' := conn.isAdmin ||
      (match token with
       | some t => verifyAdmin t
       | none => false)
    let conn' : Conn := { sessionUuid := some uuid, isAdmin := isAdmin' }
    (conn', s, [OutMsg.welcome uuid s.currentRound isAdmin'])
  | _ =>
    match conn.sessionUuid with
    | none => (conn, s, [])
    | some uuid =>
      if (ev = ClientEvent.nextRound ∨ ev = ClientEvent.resetVotes) ∧
          conn.isAdmin = false then
        (conn, s, [OutMsg.errorMsg "Unauthorized"])
      else
        match ev with
        | ClientEvent.vote cid =>
          let p := handleVote uuid cid s
          (conn, p.1, p.2)
        | ClientEvent.getVoteCounts =>
          (conn, s, [OutMsg.voteUpdate (voteCountsView s)])
        | ClientEvent.getMyVote =>
          (conn, s, [OutMsg.myVote (getVote s.currentRound uuid s.now s.ledger)])
        | ClientEvent.nextRound =>
          let p := nextRoundOp s
          (conn, p.1, p.2)
        | ClientEvent.resetVotes =>
          let p := resetVotesOp s
          (conn, p.1, p.2)
        | _ => (conn, s, [])

/-- The only failure the backing store can signal (a rejected Redis call). -/
inductive StoreErr where
  | storeUnavailable
deriving DecidableEq

/-- `handleVote` with a fallible store, `fail = true` meaning Redis calls
reject.  The first call issued is the `redis.get` of the voter's key, so on
failure nothing has been sent and no state has changed; the rejection
propagates out of the handler, there being no `try`/`catch` around it.  The
third component is `some err` when an exception escaped. -/
def handleVoteE (fail : Bool) (uuid cid : String) (s : ServerState) :
    ServerState × List OutMsg × Option StoreErr :=
  if uuid = "" then (s, [], none)
  else if fail then (s, [], some StoreErr.storeUnavailable)
  else
    let p := handleVote uuid cid s
    (p.1, p.2, none)

/-- The vote-counts computation with a fallible store: the loop body issues one
`redis.get` per catalog contestant, so with a non-empty catalog the first
iteration rejects. -/
def voteCountsViewE (fail : Bool) (s : ServerState) :
    Except StoreErr (List (String × Int)) :=
  if fail ∧ s.catalog ≠ [] then Except.error StoreErr.storeUnavailable
  else Except.ok (voteCountsView s)

/-- The `get_vote_counts` handler with a fallible store. -/
def getVoteCountsE (fail : Bool) (s : ServerState) :
    ServerState × List OutMsg × Option StoreErr :=
  match voteCountsViewE fail s with
  | Except.error e => (s, [], some e)
  | Except.ok vc => (s, [OutMsg.voteUpdate vc], none)

/-- The `get_my_vote` handler with a fallible store: its single `redis.get`
rejects first. -/
def getMyVoteE (fail : Bool) (uuid : String) (s : ServerState) :
    ServerState × List OutMsg × Option StoreErr :=
  if fail then (s, [], some StoreErr.storeUnavailable)
  else (s, [OutMsg.myVote (getVote s.currentRound uuid s.now s.ledger)], none)

/-- The `next_round` handler with a fallible store: the in-memory round bump
and the `round_update` broadcast happen before the first Redis call (inside
`broadcastVoteCounts`), and are not rolled back when it rejects. -/
def nextRoundE (fail : Bool) (s : ServerState) :
    ServerState × List OutMsg × Option StoreErr :=
  let s' := { s with currentRound := s.currentRound + 1 }
  match voteCountsViewE fail s' with
  | Except.error e => (s', [OutMsg.roundUpdate s'.currentRound], some e)
  | Except.ok vc =>
    (s', [OutMsg.roundUpdate s'.currentRound, OutMsg.voteUpdate vc], none)

/-- The `reset_votes` handler with a fallible store: with a non-empty catalog
the first `redis.del` rejects before any deletion. -/
def resetVotesE (fail : Bool) (s : ServerState) :
    ServerState × List OutMsg × Option StoreErr :=
  if fail ∧ s.catalog ≠ [] then (s, [], some StoreErr.storeUnavailable)
  else
    let p := resetVotesOp s
    (p.1, p.2, none)

/-- The `message` handler with a fallible store.  The `async` callback in
`src/index.js` wraps no handler call in `try`/`catch`, so a rejected store call
escapes as an unhandled rejection (`some err`) and, in particular, sends the
caller nothing. -/
def handleMessageE (fail : Bool) (verifyAdmin : String → Bool)
    (ev : ClientEvent) (conn : Conn) (s : ServerState) :
    Conn × ServerState × List OutMsg × Option StoreErr :=
  match ev with
  | ClientEvent.identify uuid token =>
    let isAdmin' := conn.isAdmin ||
      (match token with
       | some t => verifyAdmin t
       | none => false)
    let conn' : Conn := { sessionUuid := some uuid, isAdmin := isAdmin' }
    (conn', s, [OutMsg.welcome uuid s.currentRound isAdmin'], none)
  | _ =>
    match conn.sessionUuid with
    | none => (conn, s, [], none)
    | some uuid =>
      if (ev = ClientEvent.nextRound ∨ ev = ClientEvent.resetVotes) ∧
          conn.isAdmin = false then
        (conn, s, [OutMsg.errorMsg "Unauthorized"], none)
      else
        match ev with
        | ClientEvent.vote cid =>
          let p := handleVoteE fail uuid cid s
          (conn, p.1, p.2.1, p.2.2)
        | ClientEvent.getVoteCounts =>
          let p := getVoteCountsE fail s
          (conn, p.1, p.2.1, p.2.2)
        | ClientEvent.getMyVote =>
          let p := getMyVoteE fail uuid s
          (conn, p.1, p.2.1, p.2.2)
        | ClientEvent.nextRound =>
          let p := nextRoundE fail s
          (conn, p.1, p.2.1, p.2.2)
        | ClientEvent.resetVotes =>
          let p := resetVotesE fail s
          (conn, p.1, p.2.1, p.2.2)
        | _ => (conn, s, [], none)

/-- Reachability invariant for histories with no `reset_votes`, no empty
contestant id, and total elapsed time under the one-hour TTL (measured from
boot time `t0`): no record has expired or ever will within the window, per-key
records are unique, and every counter equals the number of ledger records for
its (round, contestant) cell. -/
def GoodState (t0 : Nat) (s : ServerState) : Prop :=
  t0 ≤ s.now ∧
  (∀ rec ∈ s.ledger, t0 + 3600 ≤ rec.expiresAt) ∧
  (∀ rec ∈ s.ledger, rec.contestantId ≠ "") ∧
  (∀ r u, (s.ledger.filter (keyMatch r u)).length ≤ 1) ∧
  (∀ r c, s.counters r c = (countAll r c s.ledger : Int))

/-- Along any history without `reset_votes`, each counter is at least the
number of non-expired records of its cell (hence never negative). -/
def TallyLower (s : ServerState) : Prop :=
  ∀ r c, (countActive r c s.now s.ledger : Int) ≤ s.counters r c

/-! ### Concrete catalogs, histories and states used in the theorems -/

/-- A one-contestant catalog. -/
def ceCatalog : List Contestant := [Contestant.mk "A" "Alice"]

/-- Voter "X" votes for "A", then the admin runs `reset_votes`. -/
def ceResetState : ServerState :=
  runOps [Op.castVote "X" "A", Op.resetVotes] (initState 0 ceCatalog)

/-- Voter "X" votes "A", the admin runs `reset_votes`, then "X" switches
to "B". -/
def ceNegState : ServerState :=
  runOps [Op.castVote "X" "A", Op.resetVotes, Op.castVote "X" "B"]
    (initState 0 ceCatalog)

/-- A history with a vote, some time passing, a round change and another
vote. -/
def wOpsConsistency : List Op :=
  [Op.castVote "X" "A", Op.tick 10, Op.nextRound, Op.castVote "X" "B"]

/-- A history in which a vote record expires (the 4000-unit pause outlives the
3600-unit TTL) before re-votes, a switch and a round change. -/
def wOpsNonneg : List Op :=
  [Op.castVote "X" "A", Op.tick 4000, Op.castVote "X" "B", Op.castVote "X" "A",
    Op.nextRound, Op.castVote "X" "B"]

/-- State after voter "X" voted "A" at boot. -/
def oneVoteState : ServerState :=
  runOps [Op.castVote "X" "A"] (initState 0 ceCatalog)

/-! ### List bookkeeping lemmas -/

theorem length_filter_filter_le {α : Type} (p q : α → Bool) (l : List α) :
    ((l.filter p).filter q).length ≤ (l.filter q).length := by
  induction l with
  | nil => simp
  | cons a l ih =>
    cases hp : p a <;> cases hq : q a <;>
      simp only [List.filter_cons, hp, hq, Bool.false_eq_true, if_false, if_true,
        List.length_cons] <;> omega

theorem length_filter_mono {α : Type} (p q : α → Bool) (l : List α)
    (h : ∀ a, p a = true → q a = true) :
    (l.filter p).length ≤ (l.filter q).length := by
  induction l with
  | nil => simp
  | cons a l ih =>
    cases hp : p a
    · cases hq : q a <;>
        simp only [List.filter_cons, hp, hq, Bool.false_eq_true, if_false, if_true,
          List.length_cons] <;> omega
    · simp only [List.filter_cons, hp, h a hp, if_true, List.length_cons]
      omega

theorem filter_partition_length {α : Type} (p q : α → Bool) (l : List α) :
    (l.filter q).length =
      ((l.filter p).filter q).length +
      ((l.filter (fun a => !(p a))).filter q).length := by
  induction l with
  | nil => simp
  | cons a l ih =>
    cases hp : p a <;> cases hq : q a <;>
      simp only [List.filter_cons, hp, hq, Bool.not_false, Bool.not_true,
        Bool.false_eq_true, if_false, if_true, List.length_cons] <;> omega

theorem filter_eq_singleton_of_find? {α : Type} (p : α → Bool) (l : List α) (a : α)
    (hfind : l.find? p = some a) (hlen : (l.filter p).length ≤ 1) :
    l.filter p = [a] := by
  induction l with
  | nil => simp at hfind
  | cons x l ih =>
    cases hp : p x
    · rw [List.find?_cons_of_neg _ (by simp [hp])] at hfind
      rw [List.filter_cons_of_neg (by simp [hp])] at hlen ⊢
      exact ih hfind hlen
    · rw [List.find?_cons_of_pos _ hp] at hfind
      obtain rfl : x = a := by injection hfind
      rw [List.filter_cons_of_pos hp] at hlen ⊢
      have : (l.filter p).length = 0 := by simpa using hlen
      rw [List.length_eq_zero.mp this]

theorem filter_eq_nil_of_find?_none {α : Type} (p : α → Bool) (l : List α)
    (h : l.find? p = none) : l.filter p = [] := by
  rw [List.filter_eq_nil_iff]
  exact List.find?_eq_none.mp h

/-! ### `handleVote` branch lemmas -/

theorem handleVote_fst_same (uuid cid : String) (s : ServerState) (hu : uuid ≠ "")
    (hget : getVote s.currentRound uuid s.now s.ledger = some cid) :
    handleVote uuid cid s = (s, [OutMsg.voteSuccess cid]) := by
  simp [handleVote, hu, hget]

theorem handleVote_fst_switch (uuid cid prev : String) (s : ServerState)
    (hu : uuid ≠ "")
    (hget : getVote s.currentRound uuid s.now s.ledger = some prev)
    (hne : prev ≠ cid) (hprev : prev ≠ "") :
    (handleVote uuid cid s).1 =
      { s with
        ledger := VoteRec.mk s.currentRound uuid cid (s.now + 3600) ::
          s.ledger.filter (fun rec => !(keyMatch s.currentRound uuid rec)),
        counters := incrC (decrC s.counters s.currentRound prev)
          s.currentRound cid } := by
  simp [handleVote, hu, hget, hne, hprev]

theorem handleVote_fst_switch_empty (uuid cid : String) (s : ServerState)
    (hu : uuid ≠ "")
    (hget : getVote s.currentRound uuid s.now s.ledger = some "")
    (hne : cid ≠ "") :
    (handleVote uuid cid s).1 =
      { s with
        ledger := VoteRec.mk s.currentRound uuid cid (s.now + 3600) ::
          s.ledger.filter (fun rec => !(keyMatch s.currentRound uuid rec)),
        counters := incrC s.counters s.currentRound cid } := by
  simp [handleVote, hu, hget, Ne.symm hne]

theorem handleVote_fst_new (uuid cid : String) (s : ServerState) (hu : uuid ≠ "")
    (hget : getVote s.currentRound uuid s.now s.ledger = none) :
    (handleVote uuid cid s).1 =
      { s with
        ledger := VoteRec.mk s.currentRound uuid cid (s.now + 3600) ::
          s.ledger.filter (fun rec => !(keyMatch s.currentRound uuid rec)),
        counters := incrC s.counters s.currentRound cid } := by
  simp [handleVote, hu, hget]

/-! ### Tally-ledger consistency invariant -/

theorem countAll_cons (r : Nat) (c : String) (x : VoteRec) (l : List VoteRec) :
    countAll r c (x :: l) = (if cellMatch r c x then 1 else 0) + countAll r c l := by
  unfold countAll
  rw [List.filter_cons]
  by_cases h : cellMatch r c x
  · rw [if_pos h, if_pos h, List.length_cons]; omega
  · rw [if_neg h, if_neg h]; omega

theorem countAll_partition (r : Nat) (c : String) (rk : Nat) (u : String)
    (l : List VoteRec) :
    countAll r c l = ((l.filter (keyMatch rk u)).filter (cellMatch r c)).length +
      countAll r c (l.filter (fun rec => !(keyMatch rk u rec))) :=
  filter_partition_length (keyMatch rk u) (cellMatch r c) l

theorem getVote_eq_of_not_expired (r : Nat) (u : String) (now : Nat)
    (l : List VoteRec) (h : ∀ rec ∈ l, now < rec.expiresAt) :
    getVote r u now l = (l.find? (keyMatch r u)).map VoteRec.contestantId := by
  unfold getVote
  cases hf : l.find? (keyMatch r u) with
  | none => simp
  | some rec => simp [h rec (List.mem_of_find?_eq_some hf)]

theorem handleVote_good (t0 : Nat) (u c : String) (s : ServerState)
    (hg : GoodState t0 s) (hnow : s.now < t0 + 3600) (hc : c ≠ "") :
    GoodState t0 (handleVote u c s).1 ∧ (handleVote u c s).1.now = s.now := by
  by_cases hu : u = ""
  · simp [handleVote, hu]
    exact hg
  obtain ⟨hg1, hg2, hg3, hg4, hg5⟩ := hg
  have hexp : ∀ rec ∈ s.ledger, s.now < rec.expiresAt := fun rec hrec =>
    lt_of_lt_of_le hnow (hg2 rec hrec)
  have hchar := getVote_eq_of_not_expired s.currentRound u s.now s.ledger hexp
  cases hf : s.ledger.find? (keyMatch s.currentRound u) with
  | none =>
    have hget : getVote s.currentRound u s.now s.ledger = none := by
      rw [hchar, hf]; rfl
    have herase : s.ledger.filter (fun rec => !(keyMatch s.currentRound u rec)) =
        s.ledger := by
      rw [List.filter_eq_self]
      intro a ha
      have := List.find?_eq_none.mp hf a ha
      simp only [Bool.not_eq_true'] at this ⊢
      simp [this]
    rw [handleVote_fst_new u c s hu hget, herase]
    refine ⟨⟨hg1, ?_, ?_, ?_, ?_⟩, rfl⟩
    · intro rec hrec
      rcases List.mem_cons.mp hrec with h | h
      · subst h; simp; omega
      · exact hg2 rec h
    · intro rec hrec
      rcases List.mem_cons.mp hrec with h | h
      · subst h; simpa using hc
      · exact hg3 rec h
    · intro r'' u''
      rw [List.filter_cons]
      by_cases hk : keyMatch r'' u'' (VoteRec.mk s.currentRound u c (s.now + 3600))
      · rw [if_pos hk, List.length_cons]
        have hk' : r'' = s.currentRound ∧ u'' = u := by
          have hx := hk
          simp only [keyMatch, Bool.and_eq_true, beq_iff_eq] at hx
          exact ⟨hx.1.symm, hx.2.symm⟩
        rw [hk'.1, hk'.2]
        have : s.ledger.filter (keyMatch s.currentRound u) = [] :=
          filter_eq_nil_of_find?_none _ _ hf
        rw [this]
        simp
      · rw [if_neg hk]
        exact hg4 r'' u''
    · intro r' c'
      rw [countAll_cons]
      have hA : (cellMatch r' c' (VoteRec.mk s.currentRound u c (s.now + 3600)) = true) ↔
          (r' = s.currentRound ∧ c' = c) := by
        simp only [cellMatch, Bool.and_eq_true, beq_iff_eq]
        exact ⟨fun ⟨x, y⟩ => ⟨x.symm, y.symm⟩, fun ⟨x, y⟩ => ⟨x.symm, y.symm⟩⟩
      simp only [incrC]
      by_cases hcond : r' = s.currentRound ∧ c' = c
      · rw [if_pos hcond, if_pos (hA.mpr hcond), hg5 r' c']
        push_cast
        omega
      · rw [if_neg hcond, if_neg (fun hx => hcond (hA.mp hx)), hg5 r' c']
        push_cast
        omega
  | some rec =>
    have hmem : rec ∈ s.ledger := List.mem_of_find?_eq_some hf
    have hkey : rec.round = s.currentRound ∧ rec.voterId = u := by
      have := List.find?_some hf
      simpa [keyMatch] using this
    have hget : getVote s.currentRound u s.now s.ledger = some rec.contestantId := by
      rw [hchar, hf]; rfl
    by_cases hsame : rec.contestantId = c
    · rw [hsame] at hget
      rw [handleVote_fst_same u c s hu hget]
      exact ⟨⟨hg1, hg2, hg3, hg4, hg5⟩, rfl⟩
    · have hprev : rec.contestantId ≠ "" := hg3 rec hmem
      rw [handleVote_fst_switch u c rec.contestantId s hu hget hsame hprev]
      have hsingle : s.ledger.filter (keyMatch s.currentRound u) = [rec] :=
        filter_eq_singleton_of_find? _ _ _ hf (hg4 s.currentRound u)
      refine ⟨⟨hg1, ?_, ?_, ?_, ?_⟩, rfl⟩
      · intro rec' hrec'
        rcases List.mem_cons.mp hrec' with h | h
        · subst h; simp; omega
        · exact hg2 rec' (List.mem_of_mem_filter h)
      · intro rec' hrec'
        rcases List.mem_cons.mp hrec' with h | h
        · subst h; simpa using hc
        · exact hg3 rec' (List.mem_of_mem_filter h)
      · intro r'' u''
        rw [List.filter_cons]
        by_cases hk : keyMatch r'' u'' (VoteRec.mk s.currentRound u c (s.now + 3600))
        · rw [if_pos hk, List.length_cons]
          have hk' : r'' = s.currentRound ∧ u'' = u := by
            have hx := hk
            simp only [keyMatch, Bool.and_eq_true, beq_iff_eq] at hx
            exact ⟨hx.1.symm, hx.2.symm⟩
          rw [hk'.1, hk'.2]
          have : (s.ledger.filter (fun rec0 => !(keyMatch s.currentRound u rec0))).filter
              (keyMatch s.currentRound u) = [] := by
            rw [List.filter_eq_nil_iff]
            intro a ha
            have := (List.mem_filter.mp ha).2
            simp only [Bool.not_eq_true'] at this
            simp [this]
          rw [this]
          simp
        · rw [if_neg hk]
          exact le_trans
            (length_filter_filter_le (fun rec0 => !(keyMatch s.currentRound u rec0))
              (keyMatch r'' u'') s.ledger)
            (hg4 r'' u'')
      · intro r' c'
        rw [countAll_cons]
        have hA : (cellMatch r' c' (VoteRec.mk s.currentRound u c (s.now + 3600)) = true) ↔
            (r' = s.currentRound ∧ c' = c) := by
          simp only [cellMatch, Bool.and_eq_true, beq_iff_eq]
          exact ⟨fun ⟨x, y⟩ => ⟨x.symm, y.symm⟩, fun ⟨x, y⟩ => ⟨x.symm, y.symm⟩⟩
        have hB : (cellMatch r' c' rec = true) ↔
            (r' = s.currentRound ∧ c' = rec.contestantId) := by
          simp only [cellMatch, Bool.and_eq_true, beq_iff_eq, hkey.1]
          exact ⟨fun ⟨x, y⟩ => ⟨x.symm, y.symm⟩, fun ⟨x, y⟩ => ⟨x.symm, y.symm⟩⟩
        have e2 : countAll r' c' s.ledger =
            (if cellMatch r' c' rec then 1 else 0) +
            countAll r' c' (s.ledger.filter (fun rec0 => !(keyMatch s.currentRound u rec0))) := by
          rw [countAll_partition r' c' s.currentRound u s.ledger, hsingle]
          rw [List.filter_cons]
          by_cases h : cellMatch r' c' rec
          · rw [if_pos h, if_pos h]; simp
          · rw [if_neg h, if_neg h]; simp
        simp only [incrC, decrC]
        by_cases h1 : r' = s.currentRound ∧ c' = c
        · rw [if_pos h1]
          have hnd : ¬(r' = s.currentRound ∧ c' = rec.contestantId) := by
            rintro ⟨_, h⟩
            exact hsame (h.symm.trans h1.2)
          rw [if_neg hnd, if_pos (hA.mpr h1), hg5 r' c', e2]
          rw [if_neg (fun hx => hnd (hB.mp hx))]
          push_cast
          omega
        · rw [if_neg h1, if_neg (fun hx => h1 (hA.mp hx))]
          by_cases h2 : r' = s.currentRound ∧ c' = rec.contestantId
          · rw [if_pos h2, hg5 r' c', e2, if_pos (hB.mpr h2)]
            push_cast
            omega
          · rw [if_neg h2, hg5 r' c', e2, if_neg (fun hx => h2 (hB.mp hx))]

theorem ticksSum_cons (op : Op) (ops : List Op) :
    ticksSum (op :: ops) = tickLen op + ticksSum ops := by
  simp [ticksSum]

theorem runOps_good : ∀ (ops : List Op) (t0 : Nat) (s : ServerState),
    GoodState t0 s → Op.resetVotes ∉ ops → (∀ op ∈ ops, okCast op = true) →
    s.now + ticksSum ops < t0 + 3600 →
    GoodState t0 (runOps ops s) ∧ (runOps ops s).now < t0 + 3600 := by
  intro ops
  induction ops with
  | nil =>
    intro t0 s hg _ _ hb
    refine ⟨hg, ?_⟩
    have e : (runOps [] s).now = s.now := rfl
    have : ticksSum [] = 0 := rfl
    omega
  | cons op ops ih =>
    intro t0 s hg hnr hok hb
    have hrun : runOps (op :: ops) s = runOps ops (stepOp s op) := rfl
    rw [hrun]
    have hnr' : Op.resetVotes ∉ ops := fun hx => hnr (List.mem_cons_of_mem _ hx)
    have hok' : ∀ o ∈ ops, okCast o = true := fun o hx => hok o (List.mem_cons_of_mem _ hx)
    rw [ticksSum_cons] at hb
    cases op with
    | castVote u c =>
      have hc : c ≠ "" := by
        have := hok _ (List.mem_cons_self _ _)
        simp [okCast] at this
        exact this
      have hnow : s.now < t0 + 3600 := by
        have : tickLen (Op.castVote u c) = 0 := rfl
        omega
      have hstep := handleVote_good t0 u c s hg hnow hc
      refine ih t0 _ hstep.1 hnr' hok' ?_
      have e : (stepOp s (Op.castVote u c)).now = s.now := hstep.2
      have : tickLen (Op.castVote u c) = 0 := rfl
      omega
    | nextRound =>
      refine ih t0 _ hg hnr' hok' ?_
      have e : (stepOp s Op.nextRound).now = s.now := rfl
      rw [e]
      have : tickLen Op.nextRound = 0 := rfl
      omega
    | resetVotes => exact absurd (List.mem_cons_self _ _) hnr
    | tick d =>
      obtain ⟨g1, g2, g3, g4, g5⟩ := hg
      have hgood' : GoodState t0 { s with now := s.now + d } :=
        ⟨Nat.le_trans g1 (Nat.le_add_right _ _), g2, g3, g4, g5⟩
      refine ih t0 _ hgood' hnr' hok' ?_
      have e : (stepOp s (Op.tick d)).now = s.now + d := rfl
      have ht : tickLen (Op.tick d) = d := rfl
      omega

theorem countAll_eq_countActive (r : Nat) (c : String) (now : Nat)
    (l : List VoteRec) (h : ∀ rec ∈ l, now < rec.expiresAt) :
    countActive r c now l = countAll r c l := by
  unfold countActive countAll
  congr 1
  apply List.filter_congr
  intro x hx
  simp [activeCell, cellMatch, h x hx]

theorem initState_good (t0 : Nat) (catalog : List Contestant) :
    GoodState t0 (initState t0 catalog) := by
  refine ⟨le_refl _, ?_, ?_, ?_, ?_⟩ <;> simp [initState, countAll]

/-! ### Non-negativity: counters dominate active-record counts -/

theorem countActive_cons (r : Nat) (c : String) (now : Nat) (x : VoteRec)
    (l : List VoteRec) :
    countActive r c now (x :: l) =
      (if activeCell r c now x then 1 else 0) + countActive r c now l := by
  unfold countActive
  rw [List.filter_cons]
  by_cases h : activeCell r c now x
  · rw [if_pos h, if_pos h, List.length_cons]; omega
  · rw [if_neg h, if_neg h]; omega

theorem countActive_partition (r : Nat) (c : String) (now rk : Nat) (u : String)
    (l : List VoteRec) :
    countActive r c now l =
      ((l.filter (keyMatch rk u)).filter (activeCell r c now)).length +
      countActive r c now (l.filter (fun rec => !(keyMatch rk u rec))) :=
  filter_partition_length (keyMatch rk u) (activeCell r c now) l

theorem countActive_erase_le (r : Nat) (c : String) (now rk : Nat) (u : String)
    (l : List VoteRec) :
    countActive r c now (l.filter (fun rec => !(keyMatch rk u rec))) ≤
      countActive r c now l :=
  length_filter_filter_le _ _ l

theorem countActive_mono_time (r : Nat) (c : String) (t t' : Nat)
    (l : List VoteRec) (h : t ≤ t') :
    countActive r c t' l ≤ countActive r c t l := by
  apply length_filter_mono
  intro a ha
  simp only [activeCell, Bool.and_eq_true, beq_iff_eq, decide_eq_true_eq] at ha ⊢
  exact ⟨ha.1, lt_of_le_of_lt h ha.2⟩

theorem getVote_some_elim (r : Nat) (u : String) (now : Nat) (l : List VoteRec)
    (p : String) (h : getVote r u now l = some p) :
    ∃ rec, l.find? (keyMatch r u) = some rec ∧ rec ∈ l ∧ rec.round = r ∧
      rec.voterId = u ∧ rec.contestantId = p ∧ now < rec.expiresAt := by
  unfold getVote at h
  cases hf : l.find? (keyMatch r u) with
  | none => rw [hf] at h; exact absurd h (by simp)
  | some rec =>
    rw [hf] at h
    have h' : (if now < rec.expiresAt then some rec.contestantId else none) = some p := h
    by_cases hex : now < rec.expiresAt
    · rw [if_pos hex] at h'
      have hk := List.find?_some hf
      simp only [keyMatch, Bool.and_eq_true, beq_iff_eq] at hk
      refine ⟨rec, rfl, List.mem_of_find?_eq_some hf, hk.1, hk.2, ?_, hex⟩
      exact Option.some.inj h'
    · rw [if_neg hex] at h'; exact absurd h' (by simp)

theorem handleVote_lower (u c : String) (s : ServerState) (h : TallyLower s) :
    TallyLower (handleVote u c s).1 := by
  by_cases hu : u = ""
  · simpa [handleVote, hu] using h
  have hA : ∀ r' c', (activeCell r' c' s.now
      (VoteRec.mk s.currentRound u c (s.now + 3600)) = true) ↔
      (r' = s.currentRound ∧ c' = c) := by
    intro r' c'
    simp only [activeCell, Bool.and_eq_true, beq_iff_eq, decide_eq_true_eq]
    constructor
    · rintro ⟨⟨x, y⟩, -⟩; exact ⟨x.symm, y.symm⟩
    · rintro ⟨x, y⟩; exact ⟨⟨x.symm, y.symm⟩, by omega⟩
  cases hget : getVote s.currentRound u s.now s.ledger with
  | none =>
    rw [handleVote_fst_new u c s hu hget]
    intro r' c'
    have hle := countActive_erase_le r' c' s.now s.currentRound u s.ledger
    have hbase := h r' c'
    simp only [incrC]
    by_cases hcond : r' = s.currentRound ∧ c' = c
    · rw [countActive_cons, if_pos ((hA r' c').mpr hcond), if_pos hcond]
      push_cast
      omega
    · rw [countActive_cons, if_neg (fun hx => hcond ((hA r' c').mp hx)), if_neg hcond]
      push_cast
      omega
  | some prev =>
    obtain ⟨rec, hf, hmem, hr, hv, hcid, hex⟩ :=
      getVote_some_elim s.currentRound u s.now s.ledger prev hget
    by_cases hsame : prev = c
    · rw [handleVote_fst_same u c s hu (hsame ▸ hget)]
      exact h
    by_cases hpe : prev = ""
    · have hcne : c ≠ "" := fun hcc => hsame (hpe.trans hcc.symm)
      rw [handleVote_fst_switch_empty u c s hu (hpe ▸ hget) hcne]
      intro r' c'
      have hle := countActive_erase_le r' c' s.now s.currentRound u s.ledger
      have hbase := h r' c'
      simp only [incrC]
      by_cases hcond : r' = s.currentRound ∧ c' = c
      · rw [countActive_cons, if_pos ((hA r' c').mpr hcond), if_pos hcond]
        push_cast
        omega
      · rw [countActive_cons, if_neg (fun hx => hcond ((hA r' c').mp hx)), if_neg hcond]
        push_cast
        omega
    · rw [handleVote_fst_switch u c prev s hu hget hsame hpe]
      intro r' c'
      have hle := countActive_erase_le r' c' s.now s.currentRound u s.ledger
      have hbase := h r' c'
      have hpart := countActive_partition r' c' s.now s.currentRound u s.ledger
      simp only [incrC, decrC]
      by_cases h1 : r' = s.currentRound ∧ c' = c
      · have h2 : ¬(r' = s.currentRound ∧ c' = prev) := by
          rintro ⟨-, hx⟩
          exact hsame (hx.symm.trans h1.2)
        rw [countActive_cons, if_pos ((hA r' c').mpr h1), if_pos h1, if_neg h2]
        push_cast
        omega
      · by_cases h2 : r' = s.currentRound ∧ c' = prev
        · have hmemk : rec ∈ s.ledger.filter (keyMatch s.currentRound u) := by
            rw [List.mem_filter]
            refine ⟨hmem, ?_⟩
            simp [keyMatch, hr, hv]
          have hact : activeCell r' c' s.now rec = true := by
            simp only [activeCell, Bool.and_eq_true, beq_iff_eq, decide_eq_true_eq]
            exact ⟨⟨hr.trans h2.1.symm, hcid.trans h2.2.symm⟩, hex⟩
          have hmemk2 : rec ∈ (s.ledger.filter (keyMatch s.currentRound u)).filter
              (activeCell r' c' s.now) :=
            List.mem_filter.mpr ⟨hmemk, hact⟩
          have hge : 1 ≤ ((s.ledger.filter (keyMatch s.currentRound u)).filter
              (activeCell r' c' s.now)).length := List.length_pos_of_mem hmemk2
          rw [countActive_cons, if_neg (fun hx => h1 ((hA r' c').mp hx)), if_neg h1,
            if_pos h2]
          push_cast
          omega
        · rw [countActive_cons, if_neg (fun hx => h1 ((hA r' c').mp hx)), if_neg h1,
            if_neg h2]
          push_cast
          omega

theorem runOps_lower : ∀ (ops : List Op) (s : ServerState),
    TallyLower s → Op.resetVotes ∉ ops → TallyLower (runOps ops s) := by
  intro ops
  induction ops with
  | nil => intro s h _; exact h
  | cons op ops ih =>
    intro s h hnr
    have hrun : runOps (op :: ops) s = runOps ops (stepOp s op) := rfl
    rw [hrun]
    have hnr' : Op.resetVotes ∉ ops := fun hx => hnr (List.mem_cons_of_mem _ hx)
    refine ih (stepOp s op) ?_ hnr'
    cases op with
    | castVote u c => exact handleVote_lower u c s h
    | nextRound => exact fun r c => h r c
    | resetVotes => exact absurd (List.mem_cons_self _ _) hnr
    | tick d =>
      intro r c
      have hm := countActive_mono_time r c s.now (s.now + d) s.ledger
        (Nat.le_add_right _ _)
      have hbase := h r c
      have e1 : (stepOp s (Op.tick d)).now = s.now + d := rfl
      have e2 : (stepOp s (Op.tick d)).ledger = s.ledger := rfl
      have e3 : (stepOp s (Op.tick d)).counters = s.counters := rfl
      rw [e1, e2, e3]
      omega

theorem initState_lower (t0 : Nat) (catalog : List Contestant) :
    TallyLower (initState t0 catalog) := by
  intro r c
  simp [initState, countActive]

/-! ### Evaluating the `reset_votes` counter loop -/

theorem catFold_eval (catalog : List Contestant) (r : Nat)
    (cs : Nat → String → Int) (r' : Nat) (c' : String) :
    (catalog.foldl (fun acc2 c => delC acc2 r c.id) cs) r' c' =
      if r' = r ∧ (∃ k ∈ catalog, c' = k.id) then 0 else cs r' c' := by
  induction catalog generalizing cs with
  | nil => simp
  | cons k ks ih =>
    rw [List.foldl_cons, ih]
    by_cases hr : r' = r
    · by_cases hks : ∃ k2 ∈ ks, c' = k2.id
      · obtain ⟨w, hw, hcw⟩ := hks
        rw [if_pos ⟨hr, ⟨w, hw, hcw⟩⟩,
          if_pos ⟨hr, ⟨w, List.mem_cons_of_mem _ hw, hcw⟩⟩]
      · rw [if_neg (fun hx => hks hx.2)]
        by_cases hck : c' = k.id
        · simp only [delC]
          rw [if_pos ⟨hr, hck⟩, if_pos ⟨hr, ⟨k, List.mem_cons_self _ _, hck⟩⟩]
        · simp only [delC]
          rw [if_neg (fun hx => hck hx.2)]
          refine (if_neg ?_).symm
          rintro ⟨-, w, hw, hcw⟩
          rcases List.mem_cons.mp hw with rfl | hw2
          · exact hck hcw
          · exact hks ⟨w, hw2, hcw⟩
    · rw [if_neg (fun hx => hr hx.1)]
      simp only [delC]
      rw [if_neg (fun hx => hr hx.1)]
      exact (if_neg (fun hx => hr hx.1)).symm

theorem resetCounters_eval (catalog : List Contestant) (cur : Nat)
    (cs : Nat → String → Int) (r' : Nat) (c' : String) :
    resetCounters catalog cur cs r' c' =
      if r' ≤ cur ∧ (∃ k ∈ catalog, c' = k.id) then 0 else cs r' c' := by
  have key : ∀ (rs : List Nat) (cs0 : Nat → String → Int),
      (rs.foldl (fun acc r => catalog.foldl (fun acc2 c => delC acc2 r c.id) acc)
        cs0) r' c' =
      if r' ∈ rs ∧ (∃ k ∈ catalog, c' = k.id) then 0 else cs0 r' c' := by
    intro rs
    induction rs with
    | nil => intro cs0; simp
    | cons r rs ih =>
      intro cs0
      rw [List.foldl_cons, ih, catFold_eval]
      by_cases hE : ∃ k ∈ catalog, c' = k.id
      · by_cases hrs : r' ∈ rs
        · rw [if_pos ⟨hrs, hE⟩, if_pos ⟨List.mem_cons_of_mem _ hrs, hE⟩]
        · rw [if_neg (fun hx => hrs hx.1)]
          by_cases hr : r' = r
          · rw [if_pos ⟨hr, hE⟩, if_pos ⟨List.mem_cons.mpr (Or.inl hr), hE⟩]
          · rw [if_neg (fun hx => hr hx.1)]
            refine (if_neg ?_).symm
            rintro ⟨hmem, -⟩
            rcases List.mem_cons.mp hmem with rfl | hw
            · exact hr rfl
            · exact hrs hw
      · have hn1 : ¬(r' ∈ rs ∧ ∃ k ∈ catalog, c' = k.id) := fun hx => hE hx.2
        have hn2 : ¬(r' ∈ r :: rs ∧ ∃ k ∈ catalog, c' = k.id) := fun hx => hE hx.2
        have hn3 : ¬(r' = r ∧ ∃ k ∈ catalog, c' = k.id) := fun hx => hE hx.2
        rw [if_neg hn1, if_neg hn3, if_neg hn2]
  unfold resetCounters
  rw [key]
  simp only [List.mem_range, Nat.lt_succ_iff]

/-! ### Re-reading the freshly written vote -/

theorem getVote_fresh (r : Nat) (u cid : String) (now e : Nat) (l : List VoteRec)
    (he : now < e) :
    getVote r u now (VoteRec.mk r u cid e :: l) = some cid := by
  unfold getVote
  rw [List.find?_cons_of_pos _ (by simp [keyMatch])]
  simp [he]

theorem handleVote_repeat_getVote (uuid cid : String) (s : ServerState)
    (hu : uuid ≠ "") :
    getVote (handleVote uuid cid s).1.currentRound uuid
      (handleVote uuid cid s).1.now (handleVote uuid cid s).1.ledger = some cid := by
  cases hget : getVote s.currentRound uuid s.now s.ledger with
  | none =>
    rw [handleVote_fst_new uuid cid s hu hget]
    exact getVote_fresh s.currentRound uuid cid s.now (s.now + 3600) _ (by omega)
  | some prev =>
    by_cases hsame : prev = cid
    · rw [hsame] at hget
      rw [handleVote_fst_same uuid cid s hu hget]
      exact hget
    · by_cases hpe : prev = ""
      · subst hpe
        have hcne : cid ≠ "" := fun hcc => hsame hcc.symm
        rw [handleVote_fst_switch_empty uuid cid s hu hget hcne]
        exact getVote_fresh s.currentRound uuid cid s.now (s.now + 3600) _ (by omega)
      · rw [handleVote_fst_switch uuid cid prev s hu hget hsame hpe]
        exact getVote_fresh s.currentRound uuid cid s.now (s.now + 3600) _ (by omega)

/-! ### Claim C1: tally consistency -/

/-- C1 (counterexample): after voter "X" votes for "A" and the admin runs
`reset_votes`, the (round 0, "A") tally reads 0 while one non-expired vote
record for (round 0, "A") remains in the ledger, so "the tally count for
(r, c) equals the number of non-expired vote records for (r, c) after any
sequence of mutating operations" is false at this input. -/
theorem tally_consistency_counterexample :
    ceResetState.counters 0 "A" = 0 ∧
    countActive 0 "A" ceResetState.now ceResetState.ledger = 1 ∧
    ceResetState.counters 0 "A" ≠
      (countActive 0 "A" ceResetState.now ceResetState.ledger : Int) :=
  ⟨by decide, by decide, by decide⟩

/-- C1 (amended): after any sequence of `castVote` and `next_round` operations
— no `reset_votes` — with nonempty contestant ids and total elapsed time under
the one-hour TTL (so no vote record expires), every tally counter equals the
number of non-expired vote records of its (round, contestant). -/
theorem tally_consistency_no_reset (t0 : Nat) (catalog : List Contestant)
    (ops : List Op) (hnr : Op.resetVotes ∉ ops)
    (hok : ∀ op ∈ ops, okCast op = true) (ht : ticksSum ops < 3600)
    (r : Nat) (c : String) :
    (runOps ops (initState t0 catalog)).counters r c =
      (countActive r c (runOps ops (initState t0 catalog)).now
        (runOps ops (initState t0 catalog)).ledger : Int) := by
  have h := runOps_good ops t0 (initState t0 catalog) (initState_good t0 catalog)
    hnr hok (by have e : (initState t0 catalog).now = t0 := rfl; omega)
  obtain ⟨⟨h1, h2, h3, h4, h5⟩, hlt⟩ := h
  rw [countAll_eq_countActive r c _ _
    (fun rec hrec => lt_of_lt_of_le hlt (h2 rec hrec))]
  exact h5 r c

/-- Witness for `tally_consistency_no_reset` on a concrete four-event
history. -/
theorem tally_consistency_no_reset_witness :
    Op.resetVotes ∉ wOpsConsistency ∧ ticksSum wOpsConsistency < 3600 ∧
    (runOps wOpsConsistency (initState 0 ceCatalog)).counters 0 "A" =
      (countActive 0 "A" (runOps wOpsConsistency (initState 0 ceCatalog)).now
        (runOps wOpsConsistency (initState 0 ceCatalog)).ledger : Int) :=
  ⟨by decide, by decide,
    tally_consistency_no_reset 0 ceCatalog wOpsConsistency (by decide) (by decide)
      (by decide) 0 "A"⟩

/-! ### Claim C2: unknown contestant ids are accepted -/

/-- C2 (code bug): `handleVote` never consults the contestant catalog.  A vote
for "Z", which is not in the catalog, is accepted: the caller gets
`vote_success`, a ledger record is stored, and the "Z" counter is incremented —
instead of an `InvalidContestant` error with no mutation. -/
theorem invalid_contestant_accepted_bug :
    "Z" ∉ ceCatalog.map Contestant.id ∧
    (handleVote "X" "Z" (initState 0 ceCatalog)).2 =
      [OutMsg.voteSuccess "Z", OutMsg.voteUpdate [("A", 0)]] ∧
    (handleVote "X" "Z" (initState 0 ceCatalog)).1.counters 0 "Z" = 1 ∧
    countActive 0 "Z" (handleVote "X" "Z" (initState 0 ceCatalog)).1.now
      (handleVote "X" "Z" (initState 0 ceCatalog)).1.ledger = 1 :=
  ⟨by decide, by decide, by decide, by decide⟩

/-! ### Claim C3: non-negative tallies -/

/-- C3 (counterexample): vote "A", `reset_votes`, then switch to "B": the
switch decrements the already-deleted "A" counter, and the (round 0, "A")
tally becomes -1, refuting "tallies are never negative" as stated. -/
theorem tally_nonneg_counterexample :
    ceNegState.counters 0 "A" = -1 ∧ ceNegState.counters 0 "A" < 0 :=
  ⟨by decide, by decide⟩

/-- C3 (amended): along any history of votes (including switches), round
changes and time passage (vote-record expiry) that contains no `reset_votes`,
every tally counter is non-negative. -/
theorem tally_nonneg_no_reset (t0 : Nat) (catalog : List Contestant)
    (ops : List Op) (hnr : Op.resetVotes ∉ ops) (r : Nat) (c : String) :
    0 ≤ (runOps ops (initState t0 catalog)).counters r c := by
  have h := runOps_lower ops (initState t0 catalog) (initState_lower t0 catalog)
    hnr r c
  exact le_trans (Int.natCast_nonneg _) h

/-- Witness for `tally_nonneg_no_reset` on a history with an expired record,
a re-vote and a switch. -/
theorem tally_nonneg_no_reset_witness :
    Op.resetVotes ∉ wOpsNonneg ∧
    0 ≤ (runOps wOpsNonneg (initState 0 ceCatalog)).counters 0 "A" :=
  ⟨by decide, tally_nonneg_no_reset 0 ceCatalog wOpsNonneg (by decide) 0 "A"⟩

/-! ### Claim C4: idempotent re-vote -/

/-- C4: casting the same contestant twice in a row for the same (round, voter)
leaves every tally entry unchanged after the second cast, and the second cast
still replies `vote_success`. -/
theorem revote_idempotent (s : ServerState) (uuid cid : String) (hu : uuid ≠ "") :
    (∀ r c, (handleVote uuid cid (handleVote uuid cid s).1).1.counters r c =
      (handleVote uuid cid s).1.counters r c) ∧
    (handleVote uuid cid (handleVote uuid cid s).1).2 =
      [OutMsg.voteSuccess cid] := by
  have h := handleVote_fst_same uuid cid (handleVote uuid cid s).1 hu
    (handleVote_repeat_getVote uuid cid s hu)
  constructor
  · intro r c
    rw [h]
  · rw [h]

/-- Witness for `revote_idempotent` at a concrete state and vote. -/
theorem revote_idempotent_witness :
    "X" ≠ "" ∧
    (handleVote "X" "A" (handleVote "X" "A" (initState 0 ceCatalog)).1).1.counters
        0 "A" =
      (handleVote "X" "A" (initState 0 ceCatalog)).1.counters 0 "A" ∧
    (handleVote "X" "A" (handleVote "X" "A" (initState 0 ceCatalog)).1).2 =
      [OutMsg.voteSuccess "A"] :=
  ⟨by decide,
    (revote_idempotent (initState 0 ceCatalog) "X" "A" (by decide)).1 0 "A",
    (revote_idempotent (initState 0 ceCatalog) "X" "A" (by decide)).2⟩

/-! ### Claim C5: vote-switch delta -/

/-- C5: for a voter holding an active record for contestant `a` in the current
round, switching to a different contestant `b` decrements `a` by exactly 1,
increments `b` by exactly 1, leaves every other counter unchanged, and leaves
the total number of active votes in that round unchanged. -/
theorem vote_switch_delta (s : ServerState) (uuid a b : String)
    (huniq : ∀ r u, (s.ledger.filter (keyMatch r u)).length ≤ 1)
    (hprev : getVote s.currentRound uuid s.now s.ledger = some a)
    (hab : a ≠ b) (ha0 : a ≠ "") (hu : uuid ≠ "") :
    (handleVote uuid b s).1.counters s.currentRound a =
      s.counters s.currentRound a - 1 ∧
    (handleVote uuid b s).1.counters s.currentRound b =
      s.counters s.currentRound b + 1 ∧
    (∀ r c, ¬(r = s.currentRound ∧ (c = a ∨ c = b)) →
      (handleVote uuid b s).1.counters r c = s.counters r c) ∧
    totalActive s.currentRound (handleVote uuid b s).1.now
      (handleVote uuid b s).1.ledger =
      totalActive s.currentRound s.now s.ledger := by
  obtain ⟨rec, hf, hmem, hr, hv, hcid, hex⟩ :=
    getVote_some_elim s.currentRound uuid s.now s.ledger a hprev
  rw [handleVote_fst_switch uuid b a s hu hprev hab ha0]
  refine ⟨?_, ?_, ?_, ?_⟩
  · show incrC (decrC s.counters s.currentRound a) s.currentRound b
      s.currentRound a = s.counters s.currentRound a - 1
    simp [incrC, decrC, hab]
  · show incrC (decrC s.counters s.currentRound a) s.currentRound b
      s.currentRound b = s.counters s.currentRound b + 1
    simp [incrC, decrC, Ne.symm hab]
  · intro r c hrc
    show incrC (decrC s.counters s.currentRound a) s.currentRound b r c =
      s.counters r c
    simp only [incrC, decrC]
    rw [if_neg (fun hx => hrc ⟨hx.1, Or.inr hx.2⟩),
      if_neg (fun hx => hrc ⟨hx.1, Or.inl hx.2⟩)]
  · show totalActive s.currentRound s.now
        (VoteRec.mk s.currentRound uuid b (s.now + 3600) ::
          s.ledger.filter (fun rec0 => !(keyMatch s.currentRound uuid rec0))) =
      totalActive s.currentRound s.now s.ledger
    have hsingle : s.ledger.filter (keyMatch s.currentRound uuid) = [rec] :=
      filter_eq_singleton_of_find? _ _ _ hf (huniq s.currentRound uuid)
    have hpart := filter_partition_length (keyMatch s.currentRound uuid)
      (fun rec0 => rec0.round == s.currentRound && decide (s.now < rec0.expiresAt))
      s.ledger
    have hone : ([rec].filter (fun rec0 => rec0.round == s.currentRound &&
        decide (s.now < rec0.expiresAt))).length = 1 := by
      simp [List.filter_cons, hr, hex]
    unfold totalActive
    rw [List.filter_cons, if_pos (by simp), List.length_cons, hpart, hsingle, hone]
    omega

/-- Witness for `vote_switch_delta` at a concrete one-vote state. -/
theorem vote_switch_delta_witness :
    getVote oneVoteState.currentRound "X" oneVoteState.now oneVoteState.ledger =
      some "A" ∧
    (handleVote "X" "B" oneVoteState).1.counters oneVoteState.currentRound "A" =
      oneVoteState.counters oneVoteState.currentRound "A" - 1 ∧
    (handleVote "X" "B" oneVoteState).1.counters oneVoteState.currentRound "B" =
      oneVoteState.counters oneVoteState.currentRound "B" + 1 ∧
    (handleVote "X" "B" oneVoteState).1.counters 1 "A" =
      oneVoteState.counters 1 "A" ∧
    totalActive oneVoteState.currentRound (handleVote "X" "B" oneVoteState).1.now
      (handleVote "X" "B" oneVoteState).1.ledger =
      totalActive oneVoteState.currentRound oneVoteState.now oneVoteState.ledger :=
  ⟨by decide,
    (vote_switch_delta oneVoteState "X" "A" "B"
      (fun r u => le_trans (List.length_filter_le _ _) (by decide))
      (by decide) (by decide) (by decide) (by decide)).1,
    (vote_switch_delta oneVoteState "X" "A" "B"
      (fun r u => le_trans (List.length_filter_le _ _) (by decide))
      (by decide) (by decide) (by decide) (by decide)).2.1,
    (vote_switch_delta oneVoteState "X" "A" "B"
      (fun r u => le_trans (List.length_filter_le _ _) (by decide))
      (by decide) (by decide) (by decide) (by decide)).2.2.1 1 "A" (by decide),
    (vote_switch_delta oneVoteState "X" "A" "B"
      (fun r u => le_trans (List.length_filter_le _ _) (by decide))
      (by decide) (by decide) (by decide) (by decide)).2.2.2⟩

/-! ### Claim C6: reset zeroes tallies but keeps ledger records -/

/-- C6: after `reset_votes`, every catalog contestant's tally for every round
`0..currentRound` reads 0, while per-voter ledger records are not purged, so a
voter's `get_my_vote` reads exactly what it read before the reset. -/
theorem reset_votes_zeroes_tallies (s : ServerState) (r : Nat) (c : String)
    (hr : r ≤ s.currentRound) (hc : c ∈ s.catalog.map Contestant.id) :
    (resetVotesOp s).1.counters r c = 0 ∧
    (resetVotesOp s).1.ledger = s.ledger ∧
    (∀ u, getVote (resetVotesOp s).1.currentRound u (resetVotesOp s).1.now
        (resetVotesOp s).1.ledger = getVote s.currentRound u s.now s.ledger) := by
  refine ⟨?_, rfl, fun u => rfl⟩
  obtain ⟨k, hkmem, hkid⟩ := List.mem_map.mp hc
  show resetCounters s.catalog s.currentRound s.counters r c = 0
  rw [resetCounters_eval]
  exact if_pos ⟨hr, ⟨k, hkmem, hkid.symm⟩⟩

/-- Witness for `reset_votes_zeroes_tallies`: "X" voted "A", the tally then
reads 0 after the reset but "X"'s recorded vote still reads "A". -/
theorem reset_votes_zeroes_tallies_witness :
    0 ≤ oneVoteState.currentRound ∧
    "A" ∈ oneVoteState.catalog.map Contestant.id ∧
    (resetVotesOp oneVoteState).1.counters 0 "A" = 0 ∧
    (resetVotesOp oneVoteState).1.ledger = oneVoteState.ledger ∧
    getVote (resetVotesOp oneVoteState).1.currentRound "X"
        (resetVotesOp oneVoteState).1.now (resetVotesOp oneVoteState).1.ledger =
      getVote oneVoteState.currentRound "X" oneVoteState.now oneVoteState.ledger ∧
    getVote oneVoteState.currentRound "X" oneVoteState.now oneVoteState.ledger =
      some "A" :=
  ⟨by decide, by decide,
    (reset_votes_zeroes_tallies oneVoteState 0 "A" (by decide) (by decide)).1,
    (reset_votes_zeroes_tallies oneVoteState 0 "A" (by decide) (by decide)).2.1,
    (reset_votes_zeroes_tallies oneVoteState 0 "A" (by decide) (by decide)).2.2 "X",
    by decide⟩

/-! ### Claim C7: next_round increments and frames -/

/-- C7: `next_round` increments the current round by exactly 1 and leaves every
tally counter of every round, and the whole ledger, untouched. -/
theorem next_round_increments_and_frames (s : ServerState) :
    (nextRoundOp s).1.currentRound = s.currentRound + 1 ∧
    (∀ r c, (nextRoundOp s).1.counters r c = s.counters r c) ∧
    (nextRoundOp s).1.ledger = s.ledger :=
  ⟨rfl, fun _ _ => rfl, rfl⟩

/-! ### Claim C8: non-admin privileged requests are rejected -/

/-- C8: an identified connection whose role is not admin sending `next_round`
or `reset_votes` receives exactly an `error "Unauthorized"` reply, and the
connection state, the round, the ledger and every tally stay as they were. -/
theorem non_admin_unauthorized (verifyAdmin : String → Bool) (ev : ClientEvent)
    (conn : Conn) (s : ServerState) (u : String)
    (hid : conn.sessionUuid = some u) (hadm : conn.isAdmin = false)
    (hev : ev = ClientEvent.nextRound ∨ ev = ClientEvent.resetVotes) :
    handleMessage verifyAdmin ev conn s =
      (conn, s, [OutMsg.errorMsg "Unauthorized"]) := by
  rcases hev with rfl | rfl <;> simp [handleMessage, hid, hadm]

/-- Witness for `non_admin_unauthorized` at a concrete connection. -/
theorem non_admin_unauthorized_witness :
    (Conn.mk (some "X") false).sessionUuid = some "X" ∧
    (Conn.mk (some "X") false).isAdmin = false ∧
    handleMessage (fun _ => false) ClientEvent.nextRound (Conn.mk (some "X") false)
        (initState 0 ceCatalog) =
      (Conn.mk (some "X") false, initState 0 ceCatalog,
        [OutMsg.errorMsg "Unauthorized"]) :=
  ⟨rfl, rfl,
    non_admin_unauthorized (fun _ => false) ClientEvent.nextRound
      (Conn.mk (some "X") false) (initState 0 ceCatalog) "X" rfl rfl (Or.inl rfl)⟩

/-! ### Claim C9: store failures are not surfaced -/

/-- C9 (code bug): with the backing store failing, a `vote` request from an
identified connection sends the caller nothing at all — the rejected store
call escapes the `message` handler, which wraps no handler call in a
`try`/`catch` — instead of being surfaced as an `error` reply. -/
theorem store_failure_not_surfaced_bug :
    handleMessageE true (fun _ => false) (ClientEvent.vote "A")
      (Conn.mk (some "X") false) (initState 0 ceCatalog) =
    (Conn.mk (some "X") false, initState 0 ceCatalog, [],
      some StoreErr.storeUnavailable) := rfl

/-! ### Claim C10: admin is sticky per connection -/

/-- C10: once a connection's role is admin, any later `identify` — whatever
the token (none, invalid or valid) and whatever the verifier says — leaves the
role admin, while re-binding the session to the newly supplied uuid. -/
theorem admin_sticky (verifyAdmin : String → Bool) (conn : Conn)
    (s : ServerState) (uuid : String) (token : Option String)
    (hadm : conn.isAdmin = true) :
    (handleMessage verifyAdmin (ClientEvent.identify uuid token) conn s).1.isAdmin =
      true ∧
    (handleMessage verifyAdmin (ClientEvent.identify uuid token) conn s).1.sessionUuid =
      some uuid := by
  constructor <;> simp [handleMessage, hadm]

/-- Witness for `admin_sticky`: an admin connection re-identifies with a token
the verifier rejects, and stays admin under the new uuid. -/
theorem admin_sticky_witness :
    (Conn.mk (some "old") true).isAdmin = true ∧
    (handleMessage (fun _ => false) (ClientEvent.identify "new" (some "badtoken"))
        (Conn.mk (some "old") true) (initState 0 ceCatalog)).1.isAdmin = true ∧
    (handleMessage (fun _ => false) (ClientEvent.identify "new" (some "badtoken"))
        (Conn.mk (some "old") true) (initState 0 ceCatalog)).1.sessionUuid =
      some "new" :=
  ⟨rfl,
    (admin_sticky (fun _ => false) (Conn.mk (some "old") true)
      (initState 0 ceCatalog) "new" (some "badtoken") rfl).1,
    (admin_sticky (fun _ => false) (Conn.mk (some "old") true)
      (initState 0 ceCatalog) "new" (some "badtoken") rfl).2⟩
